import Mathlib

/-!
Verification of `audit_monitor.py` (fortunestoldco/auditor).

The development shallowly embeds the audit agent's core logic:
repository location (`is_in_git_repo` / `find_git_repo`), process
classification (`_get_process_type`, `_get_tool_name`,
`_get_tool_name_from_cmdline`), one polling cycle of the process
lifecycle monitor (`monitor_cycle`), the filesystem event handler
(`on_modified`, `on_created`, `_should_skip_file`,
`_detect_editing_tool`), one polling cycle of the git-commit watcher
(`monitor_git_commands_cycle`), and the Claude prompt-log parser
(`_parse_claude_logs`).

Modelling conventions:
  - An absolute filesystem path is a list of components (`PathC`);
    the root `/` is `[]`.  The filesystem itself is the finite list of
    paths that exist (`fs : List PathC`); `(parent / ".git").exists()`
    becomes membership of `parent ++ [".git"]` in `fs`.
  - Gap-free wall-clock instants are rationals; each polling cycle of a
    monitor is a pure function taking the current time, and the
    external process enumeration and liveness check are parameters.
  - Python substring tests (`pat in s`) become `hasSub s pat`.
  - The `output` CSV column is either empty or the string
    Runtime: {runtime:.2f}s; it is modelled structurally as
    `Option Rat` holding the runtime, since only the embedded runtime
    value is specified.
-/

/-- Substring test on character lists: `dataSub pat s` is true iff
`pat` occurs contiguously inside `s` (Python `pat in s`). -/
def dataSub (pat : List Char) : List Char → Bool
  | [] => pat.isEmpty
  | c :: t => pat.isPrefixOf (c :: t) || dataSub pat t

/-- Python substring test `pat in s` on strings. -/
def hasSub (s pat : String) : Bool := dataSub pat.data s.data

/-- Python `str.lower()` (ASCII case mapping, as in `String.toLower`),
written structurally over the character list so that concrete
instances reduce in the kernel. -/
def strLower (s : String) : String := ⟨s.data.map Char.toLower⟩

/-- Python `str.strip()`: drop whitespace from both ends. -/
def strTrim (s : String) : String :=
  ⟨((s.data.dropWhile Char.isWhitespace).reverse.dropWhile Char.isWhitespace).reverse⟩

/-- Python slicing `s[:n]`: the first `n` characters. -/
def strTake (s : String) (n : Nat) : String := ⟨s.data.take n⟩

/-- Python `str.endswith(suf)`. -/
def strEndsWith (s suf : String) : Bool := suf.data.isSuffixOf s.data

theorem dataSub_iff (pat s : List Char) : dataSub pat s = true ↔ pat <:+: s := by
  induction s with
  | nil =>
    simp [dataSub, List.isEmpty_iff, List.infix_nil]
  | cons c t ih =>
    simp only [dataSub, Bool.or_eq_true, List.isPrefixOf_iff_prefix, ih]
    constructor
    · rintro (h | h)
      · exact h.isInfix
      · exact List.infix_cons h
    · intro h
      rcases h with ⟨u, v, huv⟩
      cases u with
      | nil => exact Or.inl ⟨v, by simpa using huv⟩
      | cons x u =>
        right
        refine ⟨u, v, ?_⟩
        have := huv
        simp only [List.cons_append] at this
        exact (List.cons_eq_cons.mp this).2

theorem suffix_hasSub {pat s : List Char} (h : pat <:+ s) : dataSub pat s = true := by
  rw [dataSub_iff]
  rcases h with ⟨u, rfl⟩
  exact ⟨u, [], by simp⟩

/-- A filesystem path, as its list of components below the root. -/
abbrev PathC := List String

/-- The string form of an absolute path (used by the substring-based
skip patterns, which the source applies to the raw path string). -/
def render (p : PathC) : String :=
  ⟨'/' :: List.intercalate ['/'] (p.map String.data)⟩

/-- `(parent / ".git").exists()` over the modelled filesystem. -/
def hasGitEntry (fs : List PathC) (p : PathC) : Bool := fs.contains (p ++ [".git"])

/-- `[current] + list(current.parents)` built along the reversed
component list: `ancAux rs` lists the prefixes of `rs.reverse`,
longest first, ending at the root `[]`. -/
def ancAux : List String → List PathC
  | [] => [[]]
  | x :: rs => (x :: rs).reverse :: ancAux rs

/-- `[current] + list(current.parents)`: the path and its ancestors,
nearest first, ending at the root `[]`. -/
def ancestors (p : PathC) : List PathC := ancAux p.reverse

theorem mem_ancAux (rs : List String) (q : PathC) :
    q ∈ ancAux rs ↔ q <+: rs.reverse := by
  induction rs with
  | nil => simp [ancAux, List.prefix_nil]
  | cons x rs ih =>
    simp only [ancAux, List.mem_cons, ih, List.reverse_cons]
    constructor
    · rintro (rfl | hq)
      · exact List.prefix_refl _
      · exact hq.trans (List.prefix_append _ _)
    · intro hq
      rcases List.prefix_concat_iff.mp hq with heq | hq'
      · exact Or.inl heq
      · exact Or.inr hq'

theorem mem_ancestors (p q : PathC) : q ∈ ancestors p ↔ q <+: p := by
  have h := mem_ancAux p.reverse q
  rwa [List.reverse_reverse] at h

/-- `GitPythonMonitor.is_in_git_repo`: walk the path and its ancestors
looking for a `.git` entry; an empty path is not in a repo. -/
def is_in_git_repo (fs : List PathC) (path : PathC) : Bool :=
  if path.isEmpty then false
  else (ancestors path).any (fun q => hasGitEntry fs q)

/-- `GitPythonMonitor.find_git_repo`: the first ancestor (nearest
first) carrying a `.git` entry, or the original path if none. -/
def find_git_repo (fs : List PathC) (path : PathC) : PathC :=
  if path.isEmpty then []
  else ((ancestors path).find? (fun q => hasGitEntry fs q)).getD path

theorem find_ancAux_some {fs : List PathC} {rs : List String} {r : PathC}
    (h : (ancAux rs).find? (fun q => hasGitEntry fs q) = some r) :
    r <+: rs.reverse ∧ hasGitEntry fs r = true ∧
      ∀ q, q <+: rs.reverse → hasGitEntry fs q = true → q.length ≤ r.length := by
  induction rs with
  | nil =>
    simp only [ancAux] at h
    rcases hfind : hasGitEntry fs [] with _ | _
    · simp [List.find?, hfind] at h
    · simp only [List.find?, hfind, Option.some.injEq] at h
      subst h
      refine ⟨List.prefix_refl _, hfind, ?_⟩
      intro q hq _
      exact List.IsPrefix.length_le hq
  | cons x rs ih =>
    simp only [ancAux, List.reverse_cons] at h ⊢
    rcases hfind : hasGitEntry fs (rs.reverse ++ [x]) with _ | _
    · rw [List.find?_cons_of_neg _ (by simp [hfind])] at h
      obtain ⟨hpre, hgit, hmax⟩ := ih h
      refine ⟨hpre.trans (List.prefix_append _ _), hgit, ?_⟩
      intro q hq hqgit
      rcases List.prefix_concat_iff.mp hq with heq | hq'
      · exfalso
        rw [heq] at hqgit
        rw [hqgit] at hfind
        exact absurd hfind (by decide)
      · exact hmax q hq' hqgit
    · rw [List.find?_cons_of_pos _ (by simp [hfind])] at h
      obtain rfl := Option.some.inj h
      refine ⟨List.prefix_refl _, hfind, ?_⟩
      intro q hq _
      exact List.IsPrefix.length_le hq

theorem find_ancestors_some {fs : List PathC} {p r : PathC}
    (h : (ancestors p).find? (fun q => hasGitEntry fs q) = some r) :
    r <+: p ∧ hasGitEntry fs r = true ∧
      ∀ q, q <+: p → hasGitEntry fs q = true → q.length ≤ r.length := by
  have h2 := @find_ancAux_some fs p.reverse r (by simpa [ancestors] using h)
  rwa [List.reverse_reverse] at h2

theorem find_ancestors_none {fs : List PathC} {p : PathC}
    (h : (ancestors p).find? (fun q => hasGitEntry fs q) = none) :
    ∀ q, q <+: p → hasGitEntry fs q = false := by
  intro q hq
  have h2 := List.find?_eq_none.mp h q ((mem_ancestors p q).mpr hq)
  simpa using h2

/-- Claim C1: for every path that has an ancestor directory (including
the path itself) containing a `.git` entry, `is_in_git_repo` returns
true and `find_git_repo` returns the nearest such ancestor (the
longest such prefix); for every path with no such ancestor,
`is_in_git_repo` returns false and `find_git_repo` returns the
original path unchanged; and the empty path gives `is_in_git_repo`
false. -/
theorem c1_repo_locator (fs : List PathC) (path : PathC) :
    (path ≠ [] → (∃ q, q <+: path ∧ hasGitEntry fs q = true) →
      is_in_git_repo fs path = true ∧
      find_git_repo fs path <+: path ∧
      hasGitEntry fs (find_git_repo fs path) = true ∧
      ∀ r, r <+: path → hasGitEntry fs r = true →
        r.length ≤ (find_git_repo fs path).length) ∧
    ((∀ q, q <+: path → hasGitEntry fs q = false) →
      is_in_git_repo fs path = false ∧ find_git_repo fs path = path) ∧
    is_in_git_repo fs [] = false := by
  refine ⟨?_, ?_, rfl⟩
  · intro hne hex
    obtain ⟨q, hq, hgit⟩ := hex
    have hE : path.isEmpty = false := by
      cases path with
      | nil => exact absurd rfl hne
      | cons a t => rfl
    rcases hfind : (ancestors path).find? (fun q => hasGitEntry fs q) with _ | r
    · exact absurd hgit (by simp [find_ancestors_none hfind q hq])
    · obtain ⟨h1, h2, h3⟩ := find_ancestors_some hfind
      refine ⟨?_, ?_⟩
      · simp only [is_in_git_repo, hE, Bool.false_eq_true, if_false]
        exact List.any_eq_true.mpr ⟨q, (mem_ancestors path q).mpr hq, hgit⟩
      · simp only [find_git_repo, hE, Bool.false_eq_true, if_false, hfind, Option.getD_some]
        exact ⟨h1, h2, h3⟩
  · intro hall
    have hnone : (ancestors path).find? (fun q => hasGitEntry fs q) = none :=
      List.find?_eq_none.mpr (fun x hx => by
        simp [hall x ((mem_ancestors path x).mp hx)])
    cases path with
    | nil => exact ⟨rfl, rfl⟩
    | cons a t =>
      refine ⟨?_, ?_⟩
      · simp only [is_in_git_repo, List.isEmpty_cons, Bool.false_eq_true, if_false]
        refine List.any_eq_false.mpr ?_
        intro x hx
        simp [hall x ((mem_ancestors _ x).mp hx)]
      · simp [find_git_repo, hnone]

/-- Witness for C1 at a concrete filesystem: `/.git` and `/a/.git`
exist, and the path `/a/b` is asked about. -/
theorem c1_repo_locator_witness :
    is_in_git_repo [[".git"], ["a", ".git"]] ["a", "b"] = true ∧
    find_git_repo [[".git"], ["a", ".git"]] ["a", "b"] <+: ["a", "b"] ∧
    hasGitEntry [[".git"], ["a", ".git"]]
      (find_git_repo [[".git"], ["a", ".git"]] ["a", "b"]) = true ∧
    ∀ r, r <+: ["a", "b"] → hasGitEntry [[".git"], ["a", ".git"]] r = true →
      r.length ≤ (find_git_repo [[".git"], ["a", ".git"]] ["a", "b"]).length :=
  (c1_repo_locator [[".git"], ["a", ".git"]] ["a", "b"]).1 (by decide)
    ⟨["a"], ⟨["b"], rfl⟩, by decide⟩

/-- One row handed to `GitPythonMonitor.log_event` (timestamp and user
are environment-supplied and omitted; `output` holds the runtime of a
Runtime: ...s message, `none` for the empty output column). -/
structure AuditEvent where
  event_type : String
  git_repo : PathC
  file_path : PathC
  command : String
  output : Option Rat
  tool : String
  prompt : String
deriving DecidableEq

/-- An entry of the OS process enumeration (`psutil.process_iter`). -/
structure ProcInfo where
  pid : Nat
  name : String
  cmdline : List String
  cwd : PathC
deriving DecidableEq

/-- A value of `GitPythonMonitor.active_processes`. -/
structure ActiveEntry where
  start_time : Rat
  cmdline : String
  cwd : PathC
  logged : Bool
  proc_type : String
deriving DecidableEq

/-- `' '.join(proc_info['cmdline'] or [])`. -/
def joinCmd (c : List String) : String :=
  ⟨List.intercalate [' '] (c.map String.data)⟩

/-- The name list used by the of-interest check and by
`_get_process_type` (it includes `node`). -/
def pm_tools : List String := ["node", "npm", "yarn", "npx", "pnpm"]

/-- The four-name list used by the tool-label functions (no `node`). -/
def npm_tools4 : List String := ["npm", "yarn", "npx", "pnpm"]

/-- The `is_monitored` test of `monitor_processes` (lines 60-64). -/
def is_monitored (proc_name : String) : Bool :=
  hasSub (strLower proc_name) "python" ||
  pm_tools.contains (strLower proc_name) ||
  hasSub (strLower proc_name) "code"

/-- `GitPythonMonitor._get_process_type`. -/
def _get_process_type (proc_name cmdline : String) : String :=
  if hasSub (strLower proc_name) "python" then "python"
  else if pm_tools.contains (strLower proc_name) then "nodejs"
  else if hasSub (strLower proc_name) "code" then "vscode"
  else if hasSub (strLower cmdline) "claude" then "claude_code"
  else "unknown"

/-- `GitPythonMonitor._get_tool_name`. -/
def _get_tool_name (proc_name cmdline : String) : String :=
  if hasSub (strLower proc_name) "code" then "vscode"
  else if hasSub (strLower cmdline) "claude" then "claude_code"
  else if npm_tools4.contains (strLower proc_name) then (strLower proc_name)
  else if (strLower proc_name) == "node" then "node"
  else if hasSub (strLower proc_name) "python" then "python"
  else proc_name

/-- `GitPythonMonitor._get_tool_name_from_cmdline`; the inner `for`
loop returns the first of the four names found in the command line,
and control would fall through to `return 'unknown'` otherwise. -/
def _get_tool_name_from_cmdline (cmdline : String) : String :=
  if hasSub (strLower cmdline) "claude" then "claude_code"
  else if hasSub (strLower cmdline) "code" then "vscode"
  else if npm_tools4.any (fun t => hasSub (strLower cmdline) t) then
    (npm_tools4.find? (fun t => hasSub (strLower cmdline) t)).getD "unknown"
  else if hasSub (strLower cmdline) "node" then "node"
  else if hasSub (strLower cmdline) "python" then "python"
  else "unknown"

/-- The tracked-process table, in dict insertion order. -/
abbrev ProcState := List (Nat × ActiveEntry)

/-- The body of the `for proc in psutil.process_iter(...)` loop of
`monitor_processes` for a single enumerated process. -/
def processOne (fs : List PathC) (now : Rat) (st : ProcState) (p : ProcInfo) :
    ProcState × List AuditEvent :=
  if is_monitored p.name then
    if is_in_git_repo fs p.cwd then
      if (st.lookup p.pid).isSome then (st, [])
      else
        (st ++ [(p.pid, ⟨now, joinCmd p.cmdline, p.cwd, false,
            _get_process_type p.name (joinCmd p.cmdline)⟩)],
          [⟨_get_process_type p.name (joinCmd p.cmdline) ++ "_start",
            find_git_repo fs p.cwd, p.cwd, joinCmd p.cmdline, none,
            _get_tool_name p.name (joinCmd p.cmdline), ""⟩])
    else (st, [])
  else (st, [])

/-- The whole enumeration sweep of one `monitor_processes` cycle. -/
def monitorEnum (fs : List PathC) (now : Rat) :
    List ProcInfo → ProcState → ProcState × List AuditEvent
  | [], st => (st, [])
  | p :: rest, st =>
    let r1 := processOne fs now st p
    let r2 := monitorEnum fs now rest r1.1
    (r2.1, r1.2 ++ r2.2)

/-- The `<proc_type>_end` event logged for a finished process
(lines 95-100): output carries `runtime = now - start_time`. -/
def endEvent (fs : List PathC) (now : Rat) (info : ActiveEntry) : AuditEvent :=
  ⟨info.proc_type ++ "_end", find_git_repo fs info.cwd, info.cwd, info.cmdline,
    some (now - info.start_time), _get_tool_name_from_cmdline info.cmdline, ""⟩

/-- The clean-up sweep of one `monitor_processes` cycle: log an end
event for every tracked pid that no longer exists, then delete it. -/
def monitorSweep (fs : List PathC) (now : Rat) (alive : Nat → Bool) (st : ProcState) :
    ProcState × List AuditEvent :=
  (st.filter (fun e => alive e.1),
   (st.filter (fun e => !alive e.1)).map (fun e => endEvent fs now e.2))

/-- One full polling cycle of `GitPythonMonitor.monitor_processes`:
the enumeration sweep followed by the clean-up sweep.  `procs` is the
OS enumeration and `alive` the `psutil.pid_exists` oracle. -/
def monitor_cycle (fs : List PathC) (now : Rat) (procs : List ProcInfo)
    (alive : Nat → Bool) (st : ProcState) : ProcState × List AuditEvent :=
  let r1 := monitorEnum fs now procs st
  let r2 := monitorSweep fs now alive r1.1
  (r2.1, r1.2 ++ r2.2)

/-- One polling cycle of `GitCommitMonitor.monitor_git_commands`. -/
def monitor_git_commands_cycle (fs : List PathC) (procs : List ProcInfo) :
    List AuditEvent :=
  procs.filterMap (fun p =>
    if p.name == "git" then
      if is_in_git_repo fs p.cwd then
        if hasSub (joinCmd p.cmdline) "commit" then
          some ⟨"git_commit", find_git_repo fs p.cwd, p.cwd, joinCmd p.cmdline,
            none, "", ""⟩
        else none
      else none
    else none)

/-- `GitPythonMonitor._parse_claude_logs` on the lines of one log
file, with `cwd` the agent's working directory (`os.getcwd()`). -/
def _parse_claude_logs (fs : List PathC) (cwd : PathC) (lines : List String) :
    List AuditEvent :=
  lines.filterMap (fun line =>
    if hasSub (strLower line) "user:" || hasSub (strLower line) "prompt:" then
      if is_in_git_repo fs cwd then
        some ⟨"claude_prompt", find_git_repo fs cwd, cwd, "", none,
          "claude_code", strTake (strTrim line) 200⟩
      else none
    else none)

/-- `GitFileHandler._should_skip_file`'s pattern list. -/
def skip_patterns : List String :=
  [".git/", ".swp", ".tmp", ".lock", ".DS_Store",
   "__pycache__/", "node_modules/", ".vscode/", "~", ".bak"]

/-- `GitFileHandler._should_skip_file`. -/
def _should_skip_file (file_path : String) : Bool :=
  skip_patterns.any (fun pat => hasSub file_path pat)

/-- `GitFileHandler._detect_editing_tool`; the scan of running
processes' open file handles is an external capability, abstracted by
the `openFileScan` oracle. -/
def _detect_editing_tool (file_path : String) (openFileScan : Bool) : String :=
  if hasSub file_path ".vscode" || strEndsWith file_path ".code-workspace" then "vscode"
  else if openFileScan then "vscode"
  else "unknown"

/-- A raw filesystem notification. -/
structure WatchEvent where
  src_path : PathC
  is_directory : Bool
deriving DecidableEq

/-- Assignment into the `last_modified` dict. -/
def dictSet (lm : List (PathC × Rat)) (k : PathC) (v : Rat) : List (PathC × Rat) :=
  (k, v) :: lm.filter (fun e => !(e.1 == k))

/-- `GitFileHandler.on_modified`: returns the new `last_modified`
table and the admitted event, if any.  Note the early `return` on a
debounced path happens before `last_modified` is reassigned. -/
def on_modified (fs : List PathC) (lm : List (PathC × Rat)) (ev : WatchEvent)
    (now : Rat) (openFileScan : Bool) : List (PathC × Rat) × Option AuditEvent :=
  if ev.is_directory then (lm, none)
  else if _should_skip_file (render ev.src_path) then (lm, none)
  else if is_in_git_repo fs ev.src_path then
    match lm.lookup ev.src_path with
    | some t0 =>
      if now - t0 < 1 then (lm, none)
      else (dictSet lm ev.src_path now,
        some ⟨"file_edit", find_git_repo fs ev.src_path, ev.src_path, "", none,
          _detect_editing_tool (render ev.src_path) openFileScan, ""⟩)
    | none =>
      (dictSet lm ev.src_path now,
        some ⟨"file_edit", find_git_repo fs ev.src_path, ev.src_path, "", none,
          _detect_editing_tool (render ev.src_path) openFileScan, ""⟩)
  else (lm, none)

/-- `GitFileHandler.on_created`: no debounce state is consulted or
written at all. -/
def on_created (fs : List PathC) (ev : WatchEvent) (openFileScan : Bool) :
    Option AuditEvent :=
  if ev.is_directory then none
  else if _should_skip_file (render ev.src_path) then none
  else if is_in_git_repo fs ev.src_path then
    some ⟨"file_create", find_git_repo fs ev.src_path, ev.src_path, "", none,
      _detect_editing_tool (render ev.src_path) openFileScan, ""⟩
  else none

/-- First-match-wins evaluation of an ordered rule table: the label of
the first rule whose test holds, else the default label. -/
def firstMatchD (rules : List (Bool × String)) (dflt : String) : String :=
  ((rules.find? (fun r => r.1)).map (fun r => r.2)).getD dflt

/-- Counterexample to claim C3: the claim says that for a name
containing both an editor marker and "python" the editor rule wins,
but `_get_process_type` tests "python" first, so the category of
"pythoncode" is `python`, not the editor category (`vscode`). -/
theorem c3_counterexample :
    _get_process_type "pythoncode" "" = "python" ∧
    _get_process_type "pythoncode" "" ≠ "vscode" := by
  constructor
  · decide
  · decide

/-- Claim C3 (amended): category and tool are assigned by two separate
first-match-wins rule tables with different orders.  The category
table tests, in order: "python" in name, name in the
package-manager set, editor marker in name, assistant marker in the
command line, default `unknown`.  The tool table tests, in order:
editor marker in name, assistant marker in the command line, name in
the four-name package-manager set (tool = that name), name = "node",
"python" in name, default the raw name.  In particular, for a name
containing both an editor marker and "python", the python rule wins
for the category while the editor rule wins for the tool. -/
theorem c3_priority_order (n c : String) :
    _get_process_type n c = firstMatchD
      [(hasSub (strLower n) "python", "python"),
       (pm_tools.contains (strLower n), "nodejs"),
       (hasSub (strLower n) "code", "vscode"),
       (hasSub (strLower c) "claude", "claude_code")] "unknown" ∧
    _get_tool_name n c = firstMatchD
      [(hasSub (strLower n) "code", "vscode"),
       (hasSub (strLower c) "claude", "claude_code"),
       (npm_tools4.contains (strLower n), (strLower n)),
       ((strLower n) == "node", "node"),
       (hasSub (strLower n) "python", "python")] n ∧
    (hasSub (strLower n) "python" = true → hasSub (strLower n) "code" = true →
      _get_process_type n c = "python" ∧ _get_tool_name n c = "vscode") := by
  refine ⟨?_, ?_, ?_⟩
  · unfold _get_process_type firstMatchD
    cases h1 : hasSub (strLower n) "python" <;>
      cases h2 : pm_tools.contains (strLower n) <;>
      cases h3 : hasSub (strLower n) "code" <;>
      cases h4 : hasSub (strLower c) "claude" <;>
      simp [List.find?, h1, h2, h3, h4]
  · unfold _get_tool_name firstMatchD
    cases h1 : hasSub (strLower n) "code" <;>
      cases h2 : hasSub (strLower c) "claude" <;>
      cases h3 : npm_tools4.contains (strLower n) <;>
      cases h4 : (strLower n) == "node" <;>
      cases h5 : hasSub (strLower n) "python" <;>
      simp [List.find?, h1, h2, h3, h4, h5]
  · intro h1 h3
    constructor
    · unfold _get_process_type
      simp [h1]
    · unfold _get_tool_name
      simp [h3]

/-- Witness for C3 (amended) at the concrete name "codepython3": the
category is `python`, the tool is `vscode`. -/
theorem c3_priority_order_witness :
    _get_process_type "codepython3" "x" = "python" ∧
    _get_tool_name "codepython3" "x" = "vscode" :=
  (c3_priority_order "codepython3" "x").2.2 (by decide) (by decide)

/-- Counterexample to claim C2: a qualifying modify notification for
`/a.txt` (in a repo rooted at `/`), whose path was admitted at time 0,
arrives again at time 1/2.  It is suppressed, but `last_modified` is
NOT updated (the early `return` precedes the assignment), so the
debounce window is fixed, not sliding.  Moreover a create notification
is never debounced at all: `on_created` consults no state. -/
theorem c2_counterexample :
    (on_modified [[".git"]] [(["a.txt"], 0)] ⟨["a.txt"], false⟩ (1/2) false).2 = none ∧
    List.lookup (["a.txt"] : PathC)
      (on_modified [[".git"]] [(["a.txt"], 0)] ⟨["a.txt"], false⟩ (1/2) false).1 = some 0 ∧
    some ((0 : Rat)) ≠ some ((1 : Rat)/2) ∧
    (on_created [[".git"]] ⟨["a.txt"], false⟩ false).isSome = true := by
  have hskip : _should_skip_file (render ["a.txt"]) = false := by decide
  have hrepo : is_in_git_repo [[".git"]] ["a.txt"] = true := by decide
  have hlk : List.lookup (["a.txt"] : PathC) [((["a.txt"] : PathC), (0 : Rat))] = some 0 := by
    decide
  have hlt : ((1 : Rat)/2 - 0 < 1) := by norm_num
  have hmod : on_modified [[".git"]] [(["a.txt"], 0)] ⟨["a.txt"], false⟩ (1/2) false =
      ([(["a.txt"], 0)], none) := by
    unfold on_modified
    simp only [hskip, hrepo, hlk, Bool.false_eq_true, if_false, if_true]
    rw [if_pos hlt]
  refine ⟨by rw [hmod], by rw [hmod]; exact hlk, by norm_num, by decide⟩

/-- Claim C2 (amended): only modify notifications are debounced.  A
qualifying modify notification (file, not excluded, inside a repo)
whose path was last admitted less than 1 time-unit earlier is
suppressed and leaves the debounce table unchanged — the window is
fixed at the last ADMITTED time, not sliding.  A qualifying create
notification is admitted unconditionally: `on_created` consults no
debounce state. -/
theorem c2_debounce (fs : List PathC) (lm : List (PathC × Rat)) (p : PathC)
    (t0 now : Rat) (scan : Bool)
    (hskip : _should_skip_file (render p) = false)
    (hrepo : is_in_git_repo fs p = true)
    (hlast : lm.lookup p = some t0)
    (hwin : now - t0 < 1) :
    on_modified fs lm ⟨p, false⟩ now scan = (lm, none) ∧
    on_created fs ⟨p, false⟩ scan =
      some ⟨"file_create", find_git_repo fs p, p, "", none,
        _detect_editing_tool (render p) scan, ""⟩ := by
  constructor
  · unfold on_modified
    simp only [hskip, hrepo, hlast, Bool.false_eq_true, if_false, if_true]
    rw [if_pos hwin]
  · unfold on_created
    simp only [hskip, hrepo, Bool.false_eq_true, if_false, if_true]

/-- Witness for C2 (amended) at concrete inputs: path `/a.txt` in the
repo rooted at `/`, last admitted at time 0, notified again at 1/2. -/
theorem c2_debounce_witness :
    on_modified [[".git"]] [(["a.txt"], 0)] ⟨["a.txt"], false⟩ (1/2) false =
      ([(["a.txt"], 0)], none) ∧
    on_created [[".git"]] ⟨["a.txt"], false⟩ false =
      some ⟨"file_create", find_git_repo [[".git"]] ["a.txt"], ["a.txt"], "", none,
        _detect_editing_tool (render ["a.txt"]) false, ""⟩ :=
  c2_debounce [[".git"]] [(["a.txt"], 0)] ["a.txt"] 0 (1/2) false
    (by decide) (by decide) (by decide) (by norm_num)

/-- Claim C7: a notification whose path string contains
`node_modules/`, or ends in `.lock`, is never admitted: neither
`on_modified` nor `on_created` produces an event, regardless of repo
membership, directory flag, timing or debounce state. -/
theorem c7_exclusion (fs : List PathC) (lm : List (PathC × Rat)) (p : PathC)
    (d : Bool) (now : Rat) (scan : Bool)
    (h : hasSub (render p) "node_modules/" = true ∨
         strEndsWith (render p) ".lock" = true) :
    on_modified fs lm ⟨p, d⟩ now scan = (lm, none) ∧
    on_created fs ⟨p, d⟩ scan = none := by
  have hskip : _should_skip_file (render p) = true := by
    unfold _should_skip_file
    apply List.any_eq_true.mpr
    rcases h with h | h
    · exact ⟨"node_modules/", by decide, h⟩
    · refine ⟨".lock", by decide, ?_⟩
      unfold hasSub
      exact suffix_hasSub (List.isSuffixOf_iff_suffix.mp h)
  cases d with
  | false =>
    constructor
    · unfold on_modified
      simp only [hskip, Bool.false_eq_true, if_false, if_true]
    · unfold on_created
      simp only [hskip, Bool.false_eq_true, if_false, if_true]
  | true =>
    constructor
    · unfold on_modified
      simp
    · unfold on_created
      simp

/-- Witness for C7: a file under `node_modules/` and a `.lock` file
are both rejected. -/
theorem c7_exclusion_witness :
    (on_modified [[".git"]] [] ⟨["a", "node_modules", "x.js"], false⟩ 0 false =
      ([], none) ∧
     on_created [[".git"]] ⟨["a", "node_modules", "x.js"], false⟩ false = none) ∧
    (on_modified [[".git"]] [] ⟨["pkg.lock"], false⟩ 0 false = ([], none) ∧
     on_created [[".git"]] ⟨["pkg.lock"], false⟩ false = none) :=
  ⟨c7_exclusion [[".git"]] [] ["a", "node_modules", "x.js"] false 0 false
      (Or.inl (by decide)),
   c7_exclusion [[".git"]] [] ["pkg.lock"] false 0 false (Or.inr (by decide))⟩

/-- `filterMap` of a guarded `some` is `map` after `filter`. -/
theorem filterMap_guard_eq_map_filter {α β : Type} (t : α → Bool) (g : α → β)
    (l : List α) :
    l.filterMap (fun a => if t a then some (g a) else none) = (l.filter t).map g := by
  induction l with
  | nil => rfl
  | cons a l ih =>
    simp only [List.filterMap_cons, List.filter_cons]
    cases h : t a
    · simp [h, ih]
    · simp [h, ih]

/-- Claim C6: each polling cycle of the commit watcher emits exactly
one `git_commit` event per enumerated process whose name is exactly
"git", whose working directory is inside a repo, and whose command
line contains "commit" — and no event for any other process; the
watcher keeps no state, so over `n` cycles with the same enumeration
each qualifying process is logged once per cycle. -/
theorem c6_commit_watcher (fs : List PathC) (procs : List ProcInfo) :
    monitor_git_commands_cycle fs procs =
      (procs.filter (fun p => p.name == "git" && is_in_git_repo fs p.cwd &&
          hasSub (joinCmd p.cmdline) "commit")).map
        (fun p => ⟨"git_commit", find_git_repo fs p.cwd, p.cwd, joinCmd p.cmdline,
          none, "", ""⟩) ∧
    (∀ ev ∈ monitor_git_commands_cycle fs procs, ev.event_type = "git_commit") ∧
    ∀ n : Nat,
      ((List.replicate n (monitor_git_commands_cycle fs procs)).flatten).length =
        n * (procs.filter (fun p => p.name == "git" && is_in_git_repo fs p.cwd &&
          hasSub (joinCmd p.cmdline) "commit")).length := by
  have hfun : (fun p : ProcInfo =>
        if p.name == "git" then
          if is_in_git_repo fs p.cwd then
            if hasSub (joinCmd p.cmdline) "commit" then
              some (⟨"git_commit", find_git_repo fs p.cwd, p.cwd, joinCmd p.cmdline,
                none, "", ""⟩ : AuditEvent)
            else none
          else none
        else none) =
      (fun p : ProcInfo =>
        if (p.name == "git" && is_in_git_repo fs p.cwd &&
            hasSub (joinCmd p.cmdline) "commit") then
          some ((fun p : ProcInfo =>
            (⟨"git_commit", find_git_repo fs p.cwd, p.cwd, joinCmd p.cmdline,
              none, "", ""⟩ : AuditEvent)) p)
        else none) := by
    funext q
    by_cases h1 : (q.name == "git") = true <;>
      by_cases h2 : is_in_git_repo fs q.cwd = true <;>
      by_cases h3 : hasSub (joinCmd q.cmdline) "commit" = true <;>
      simp [h1, h2, h3]
  have hmain : monitor_git_commands_cycle fs procs =
      (procs.filter (fun p => p.name == "git" && is_in_git_repo fs p.cwd &&
          hasSub (joinCmd p.cmdline) "commit")).map
        (fun p => (⟨"git_commit", find_git_repo fs p.cwd, p.cwd, joinCmd p.cmdline,
          none, "", ""⟩ : AuditEvent)) := by
    unfold monitor_git_commands_cycle
    rw [hfun]
    exact filterMap_guard_eq_map_filter _ _ _
  refine ⟨hmain, ?_, ?_⟩
  · intro ev hev
    rw [hmain] at hev
    obtain ⟨p, _, rfl⟩ := List.mem_map.mp hev
    rfl
  · intro n
    induction n with
    | zero => simp
    | succ m ihm =>
      rw [List.replicate_succ, List.flatten_cons, List.length_append, ihm, hmain,
        List.length_map]
      ring

/-- Witness for C6: a `git commit -m x` process in a repo produces the
`git_commit` event, and that event's type is `git_commit`. -/
theorem c6_commit_watcher_witness :
    (⟨"git_commit", [], ["w"], "git commit -m x", none, "", ""⟩ : AuditEvent).event_type =
      "git_commit" :=
  (c6_commit_watcher [[".git"]]
      [⟨3, "git", ["git", "commit", "-m", "x"], ["w"]⟩]).2.1
    ⟨"git_commit", [], ["w"], "git commit -m x", none, "", ""⟩ (by decide)

/-- If every tracked pid is still alive, the clean-up sweep changes
nothing and emits nothing. -/
theorem monitorSweep_all_alive (fs : List PathC) (now : Rat) (alive : Nat → Bool)
    (st : ProcState) (h : ∀ e ∈ st, alive e.1 = true) :
    monitorSweep fs now alive st = (st, []) := by
  have h2 : st.filter (fun e => !alive e.1) = [] :=
    List.filter_eq_nil_iff.mpr (by intro a ha; simp [h a ha])
  unfold monitorSweep
  rw [List.filter_eq_self.mpr h, h2]
  rfl

/-- Claim C4: a process of interest first observed at cycle N (time
`t1`) and absent at cycle N+1 (time `t2`) produces exactly one
`<category>_start` event at cycle N and exactly one `<category>_end`
event at cycle N+1, whose output carries `runtime = t2 - t1`; the
tracked entry is removed afterwards, so a further cycle without the
process emits nothing for that pid. -/
theorem c4_lifecycle (fs : List PathC) (st0 : ProcState) (p : ProcInfo)
    (t1 t2 t3 : Rat) (alive1 alive2 alive3 : Nat → Bool)
    (hm : is_monitored p.name = true)
    (hr : is_in_git_repo fs p.cwd = true)
    (h0 : st0.lookup p.pid = none)
    (ha1p : alive1 p.pid = true)
    (ha1 : ∀ e ∈ st0, alive1 e.1 = true)
    (ha2p : alive2 p.pid = false)
    (ha2 : ∀ e ∈ st0, alive2 e.1 = true)
    (ha3 : ∀ e ∈ st0, alive3 e.1 = true) :
    monitor_cycle fs t1 [p] alive1 st0 =
      (st0 ++ [(p.pid, ⟨t1, joinCmd p.cmdline, p.cwd, false,
          _get_process_type p.name (joinCmd p.cmdline)⟩)],
       [⟨_get_process_type p.name (joinCmd p.cmdline) ++ "_start",
          find_git_repo fs p.cwd, p.cwd, joinCmd p.cmdline, none,
          _get_tool_name p.name (joinCmd p.cmdline), ""⟩]) ∧
    monitor_cycle fs t2 [] alive2
        (st0 ++ [(p.pid, ⟨t1, joinCmd p.cmdline, p.cwd, false,
          _get_process_type p.name (joinCmd p.cmdline)⟩)]) =
      (st0,
       [⟨_get_process_type p.name (joinCmd p.cmdline) ++ "_end",
          find_git_repo fs p.cwd, p.cwd, joinCmd p.cmdline, some (t2 - t1),
          _get_tool_name_from_cmdline (joinCmd p.cmdline), ""⟩]) ∧
    monitor_cycle fs t3 [] alive3 st0 = (st0, []) := by
  refine ⟨?_, ?_, ?_⟩
  · have he1 : monitorEnum fs t1 [p] st0 =
        (st0 ++ [(p.pid, ⟨t1, joinCmd p.cmdline, p.cwd, false,
            _get_process_type p.name (joinCmd p.cmdline)⟩)],
         [⟨_get_process_type p.name (joinCmd p.cmdline) ++ "_start",
            find_git_repo fs p.cwd, p.cwd, joinCmd p.cmdline, none,
            _get_tool_name p.name (joinCmd p.cmdline), ""⟩]) := by
      simp [monitorEnum, processOne, hm, hr, h0]
    have hal1 : ∀ e ∈ st0 ++ [(p.pid, (⟨t1, joinCmd p.cmdline, p.cwd, false,
        _get_process_type p.name (joinCmd p.cmdline)⟩ : ActiveEntry))],
        alive1 e.1 = true := by
      intro e he
      rcases List.mem_append.mp he with h | h
      · exact ha1 e h
      · simp only [List.mem_singleton] at h
        subst h
        simpa using ha1p
    simp [monitor_cycle, he1, monitorSweep_all_alive fs t1 alive1 _ hal1]
  · have he2 : monitorEnum fs t2 []
        (st0 ++ [(p.pid, ⟨t1, joinCmd p.cmdline, p.cwd, false,
          _get_process_type p.name (joinCmd p.cmdline)⟩)]) =
        (st0 ++ [(p.pid, ⟨t1, joinCmd p.cmdline, p.cwd, false,
          _get_process_type p.name (joinCmd p.cmdline)⟩)], []) := by
      simp [monitorEnum]
    have hf1 : (st0 ++ [(p.pid, (⟨t1, joinCmd p.cmdline, p.cwd, false,
        _get_process_type p.name (joinCmd p.cmdline)⟩ : ActiveEntry))]).filter
          (fun e => alive2 e.1) = st0 := by
      rw [List.filter_append, List.filter_eq_self.mpr ha2]
      have h2b : ([(p.pid, (⟨t1, joinCmd p.cmdline, p.cwd, false,
          _get_process_type p.name (joinCmd p.cmdline)⟩ : ActiveEntry))]).filter
            (fun e => alive2 e.1) = [] := by
        simp [List.filter, ha2p]
      rw [h2b, List.append_nil]
    have hf2 : (st0 ++ [(p.pid, (⟨t1, joinCmd p.cmdline, p.cwd, false,
        _get_process_type p.name (joinCmd p.cmdline)⟩ : ActiveEntry))]).filter
          (fun e => !alive2 e.1) =
        [(p.pid, (⟨t1, joinCmd p.cmdline, p.cwd, false,
          _get_process_type p.name (joinCmd p.cmdline)⟩ : ActiveEntry))] := by
      rw [List.filter_append,
        List.filter_eq_nil_iff.mpr (by intro a ha; simp [ha2 a ha])]
      simp [List.filter, ha2p]
    simp [monitor_cycle, monitorSweep, he2, hf1, hf2, endEvent]
  · have he3 : monitorEnum fs t3 [] st0 = (st0, []) := by simp [monitorEnum]
    simp [monitor_cycle, he3, monitorSweep_all_alive fs t3 alive3 st0 ha3]

/-- Witness for C4: a `python3` process seen once in a repo at time 1
and gone at time 5; one start event, one end event with runtime
`5 - 1`, then nothing. -/
theorem c4_lifecycle_witness :
    monitor_cycle [[".git"]] 1 [⟨7, "python3", ["./run.sh"], ["w"]⟩]
        (fun _ => true) [] =
      ([(7, ⟨1, joinCmd ["./run.sh"], ["w"], false,
          _get_process_type "python3" (joinCmd ["./run.sh"])⟩)],
       [⟨_get_process_type "python3" (joinCmd ["./run.sh"]) ++ "_start",
          find_git_repo [[".git"]] ["w"], ["w"], joinCmd ["./run.sh"], none,
          _get_tool_name "python3" (joinCmd ["./run.sh"]), ""⟩]) ∧
    monitor_cycle [[".git"]] 5 [] (fun _ => false)
        ([] ++ [(7, ⟨1, joinCmd ["./run.sh"], ["w"], false,
          _get_process_type "python3" (joinCmd ["./run.sh"])⟩)]) =
      ([],
       [⟨_get_process_type "python3" (joinCmd ["./run.sh"]) ++ "_end",
          find_git_repo [[".git"]] ["w"], ["w"], joinCmd ["./run.sh"],
          some (5 - 1), _get_tool_name_from_cmdline (joinCmd ["./run.sh"]), ""⟩]) ∧
    monitor_cycle [[".git"]] 9 [] (fun _ => true) [] = ([], []) :=
  c4_lifecycle [[".git"]] [] ⟨7, "python3", ["./run.sh"], ["w"]⟩ 1 5 9
    (fun _ => true) (fun _ => false) (fun _ => true)
    (by decide) (by decide) (by decide) (by decide)
    (by intro e he; cases he) (by decide)
    (by intro e he; cases he) (by intro e he; cases he)

/-- A name passing the of-interest check is classified `python`,
`nodejs` or `vscode`: the same three tests come first, in the same
order, in `_get_process_type`. -/
theorem monitored_type_mem (n c : String) (h : is_monitored n = true) :
    _get_process_type n c ∈ (["python", "nodejs", "vscode"] : List String) := by
  unfold is_monitored at h
  unfold _get_process_type
  by_cases h1 : hasSub (strLower n) "python" = true
  · simp [h1]
  · have h1f : hasSub (strLower n) "python" = false := Bool.eq_false_iff.mpr h1
    by_cases h2 : strLower n ∈ pm_tools
    · simp [h1f, h2]
    · have h2f : pm_tools.contains (strLower n) = false := by
        simpa using h2
      by_cases h3 : hasSub (strLower n) "code" = true
      · simp [h1f, h2f, h2, h3]
      · have h3f : hasSub (strLower n) "code" = false := Bool.eq_false_iff.mpr h3
        rw [h1f, h2f, h3f] at h
        simp at h

/-- Through one enumeration sweep, every tracked entry keeps a
`proc_type` drawn from the classifier outputs on monitored names, and
every emitted event is a start event for such a type. -/
theorem monitorEnum_good (P : String → Prop)
    (hP : ∀ n c, is_monitored n = true → P (_get_process_type n c))
    (fs : List PathC) (now : Rat) (procs : List ProcInfo) (st : ProcState)
    (hst : ∀ e ∈ st, P e.2.proc_type) :
    (∀ e ∈ (monitorEnum fs now procs st).1, P e.2.proc_type) ∧
    (∀ ev ∈ (monitorEnum fs now procs st).2,
      ∃ t, P t ∧ ev.event_type = t ++ "_start") := by
  induction procs generalizing st with
  | nil => exact ⟨hst, by simp [monitorEnum]⟩
  | cons p rest ih =>
    have h1 : (∀ e ∈ (processOne fs now st p).1, P e.2.proc_type) ∧
        (∀ ev ∈ (processOne fs now st p).2,
          ∃ t, P t ∧ ev.event_type = t ++ "_start") := by
      unfold processOne
      by_cases hmon : is_monitored p.name = true
      · by_cases hrep : is_in_git_repo fs p.cwd = true
        · by_cases hlk : (st.lookup p.pid).isSome = true
          · simp only [hmon, hrep, hlk, if_true]
            exact ⟨hst, by simp⟩
          · have hlkf : (st.lookup p.pid).isSome = false := Bool.eq_false_iff.mpr hlk
            simp only [hmon, hrep, hlkf, Bool.false_eq_true, if_false, if_true]
            constructor
            · intro e he
              rcases List.mem_append.mp he with h | h
              · exact hst e h
              · simp only [List.mem_singleton] at h
                subst h
                exact hP p.name (joinCmd p.cmdline) hmon
            · intro ev hev
              simp only [List.mem_singleton] at hev
              subst hev
              exact ⟨_get_process_type p.name (joinCmd p.cmdline),
                hP p.name (joinCmd p.cmdline) hmon, rfl⟩
        · have hrf : is_in_git_repo fs p.cwd = false := Bool.eq_false_iff.mpr hrep
          simp only [hmon, hrf, Bool.false_eq_true, if_false, if_true]
          exact ⟨hst, by simp⟩
      · have hmf : is_monitored p.name = false := Bool.eq_false_iff.mpr hmon
        simp only [hmf, Bool.false_eq_true, if_false]
        exact ⟨hst, by simp⟩
    have h2 := ih (processOne fs now st p).1 h1.1
    constructor
    · intro e he
      exact h2.1 e he
    · intro ev hev
      have hsplit : ev ∈ (processOne fs now st p).2 ++
          (monitorEnum fs now rest (processOne fs now st p).1).2 := by
        simpa [monitorEnum] using hev
      rcases List.mem_append.mp hsplit with h | h
      · exact h1.2 ev h
      · exact h2.2 ev h

/-- Through one full polling cycle, the tracked-type invariant is
preserved and every emitted event is a start or end event for a type
satisfying the invariant. -/
theorem monitor_cycle_good (P : String → Prop)
    (hP : ∀ n c, is_monitored n = true → P (_get_process_type n c))
    (fs : List PathC) (now : Rat) (procs : List ProcInfo) (alive : Nat → Bool)
    (st : ProcState) (hst : ∀ e ∈ st, P e.2.proc_type) :
    (∀ e ∈ (monitor_cycle fs now procs alive st).1, P e.2.proc_type) ∧
    (∀ ev ∈ (monitor_cycle fs now procs alive st).2,
      (∃ t, P t ∧ ev.event_type = t ++ "_start") ∨
      (∃ t, P t ∧ ev.event_type = t ++ "_end")) := by
  obtain ⟨hs, he⟩ := monitorEnum_good P hP fs now procs st hst
  constructor
  · intro e hee
    have hm : e ∈ (monitorEnum fs now procs st).1.filter (fun e => alive e.1) := by
      simpa [monitor_cycle, monitorSweep] using hee
    exact hs e (List.mem_filter.mp hm).1
  · intro ev hev
    have hm : ev ∈ (monitorEnum fs now procs st).2 ++
        ((monitorEnum fs now procs st).1.filter (fun e => !alive e.1)).map
          (fun e => endEvent fs now e.2) := by
      simpa [monitor_cycle, monitorSweep] using hev
    rcases List.mem_append.mp hm with h | h
    · exact Or.inl (he ev h)
    · right
      obtain ⟨e, hef, rfl⟩ := List.mem_map.mp h
      exact ⟨e.2.proc_type, hs e (List.mem_filter.mp hef).1, rfl⟩

/-- Claim C9: every `_start` / `_end` event emitted by the process
lifecycle monitor has category `python`, `nodejs` or `vscode`; the
`claude_code` (assistant) and `unknown` branches of the classifier are
unreachable from it, because the of-interest predicate requires one of
the same three name tests that come first in `_get_process_type`. -/
theorem c9_reachable_categories :
    (∀ n c, is_monitored n = true →
      _get_process_type n c ∈ (["python", "nodejs", "vscode"] : List String)) ∧
    ∀ fs now procs alive st,
      (∀ e ∈ st, e.2.proc_type ∈ (["python", "nodejs", "vscode"] : List String)) →
      (∀ e ∈ (monitor_cycle fs now procs alive st).1,
        e.2.proc_type ∈ (["python", "nodejs", "vscode"] : List String)) ∧
      (∀ ev ∈ (monitor_cycle fs now procs alive st).2,
        ∃ cat ∈ (["python", "nodejs", "vscode"] : List String),
          ev.event_type = cat ++ "_start" ∨ ev.event_type = cat ++ "_end") := by
  refine ⟨monitored_type_mem, ?_⟩
  intro fs now procs alive st hst
  obtain ⟨hs, he⟩ := monitor_cycle_good
    (fun t => t ∈ (["python", "nodejs", "vscode"] : List String))
    monitored_type_mem fs now procs alive st hst
  refine ⟨hs, ?_⟩
  intro ev hev
  rcases he ev hev with ⟨t, ht, heq⟩ | ⟨t, ht, heq⟩
  · exact ⟨t, ht, Or.inl heq⟩
  · exact ⟨t, ht, Or.inr heq⟩

/-- Witness for C9: a VSCode process produces a `vscode_start` event,
whose category is in the three-element set. -/
theorem c9_reachable_categories_witness :
    _get_process_type "python3" "" ∈ (["python", "nodejs", "vscode"] : List String) ∧
    ∃ cat ∈ (["python", "nodejs", "vscode"] : List String),
      (⟨"vscode_start", [], ["w"], "", none, "vscode", ""⟩ : AuditEvent).event_type =
          cat ++ "_start" ∨
        (⟨"vscode_start", [], ["w"], "", none, "vscode", ""⟩ : AuditEvent).event_type =
          cat ++ "_end" :=
  ⟨c9_reachable_categories.1 "python3" "" (by decide),
   (c9_reachable_categories.2 [[".git"]] 0 [⟨1, "code", [], ["w"]⟩]
       (fun _ => true) [] (by intro e he; cases he)).2
     ⟨"vscode_start", [], ["w"], "", none, "vscode", ""⟩ (by decide)⟩

/-- `_get_process_type` always returns one of the five category
strings of the code. -/
theorem type_mem5 (n c : String) :
    _get_process_type n c ∈
      (["python", "nodejs", "vscode", "claude_code", "unknown"] : List String) := by
  unfold _get_process_type
  split_ifs <;> simp

/-- Counterexample to claim C5: the claim draws the category part of
`_start`/`_end` event types from {python, nodejs, editor, assistant,
unknown}, but the process monitor writes `vscode_start` (and the code
categories are `vscode` and `claude_code`, not `editor` and
`assistant`). -/
theorem c5_counterexample :
    (monitor_cycle [[".git"]] 0 [⟨1, "code", [], ["w"]⟩] (fun _ => true) []).2.map
      (fun ev => ev.event_type) = ["vscode_start"] ∧
    ∀ cat ∈ (["python", "nodejs", "editor", "assistant", "unknown"] : List String),
      "vscode_start" ≠ cat ++ "_start" ∧ "vscode_start" ≠ cat ++ "_end" := by
  constructor
  · decide
  · decide

/-- Claim C5 (amended): every event_type ever written is
`{category}_start` or `{category}_end` with the category drawn from
exactly {python, nodejs, vscode, claude_code, unknown} (the codomain
of `_get_process_type`), or one of `file_edit`, `file_create`,
`git_commit`, `claude_prompt`. -/
theorem c5_event_types :
    (∀ n c, _get_process_type n c ∈
      (["python", "nodejs", "vscode", "claude_code", "unknown"] : List String)) ∧
    (∀ fs now procs alive st,
      (∀ e ∈ st, e.2.proc_type ∈
        (["python", "nodejs", "vscode", "claude_code", "unknown"] : List String)) →
      (∀ e ∈ (monitor_cycle fs now procs alive st).1, e.2.proc_type ∈
        (["python", "nodejs", "vscode", "claude_code", "unknown"] : List String)) ∧
      (∀ ev ∈ (monitor_cycle fs now procs alive st).2,
        ∃ cat ∈ (["python", "nodejs", "vscode", "claude_code", "unknown"] : List String),
          ev.event_type = cat ++ "_start" ∨ ev.event_type = cat ++ "_end")) ∧
    (∀ fs lm e now scan ev, (on_modified fs lm e now scan).2 = some ev →
      ev.event_type = "file_edit") ∧
    (∀ fs e scan ev, on_created fs e scan = some ev →
      ev.event_type = "file_create") ∧
    (∀ fs procs ev, ev ∈ monitor_git_commands_cycle fs procs →
      ev.event_type = "git_commit") ∧
    (∀ fs cwd lines ev, ev ∈ _parse_claude_logs fs cwd lines →
      ev.event_type = "claude_prompt") := by
  refine ⟨type_mem5, ?_, ?_, ?_, ?_, ?_⟩
  · intro fs now procs alive st hst
    obtain ⟨hs, he⟩ := monitor_cycle_good
      (fun t => t ∈
        (["python", "nodejs", "vscode", "claude_code", "unknown"] : List String))
      (fun n c _ => type_mem5 n c) fs now procs alive st hst
    refine ⟨hs, ?_⟩
    intro ev hev
    rcases he ev hev with ⟨t, ht, heq⟩ | ⟨t, ht, heq⟩
    · exact ⟨t, ht, Or.inl heq⟩
    · exact ⟨t, ht, Or.inr heq⟩
  · intro fs lm e now scan ev hev
    unfold on_modified at hev
    rcases hlk : lm.lookup e.src_path with _ | t0 <;> simp only [hlk] at hev
    · split_ifs at hev <;>
        first
          | exact Option.noConfusion hev
          | (obtain rfl := Option.some.inj hev; rfl)
    · by_cases hw : now - t0 < 1
      · rw [if_pos hw] at hev
        split_ifs at hev <;> exact Option.noConfusion hev
      · rw [if_neg hw] at hev
        split_ifs at hev <;>
          first
            | exact Option.noConfusion hev
            | (obtain rfl := Option.some.inj hev; rfl)
  · intro fs e scan ev hev
    unfold on_created at hev
    split_ifs at hev <;>
      first
        | exact Option.noConfusion hev
        | (obtain rfl := Option.some.inj hev; rfl)
  · intro fs procs ev hev
    unfold monitor_git_commands_cycle at hev
    obtain ⟨p, _, hp⟩ := List.mem_filterMap.mp hev
    split_ifs at hp <;>
      first
        | exact Option.noConfusion hp
        | (obtain rfl := Option.some.inj hp; rfl)
  · intro fs cwd lines ev hev
    unfold _parse_claude_logs at hev
    obtain ⟨line, _, hl⟩ := List.mem_filterMap.mp hev
    split_ifs at hl <;>
      first
        | exact Option.noConfusion hl
        | (obtain rfl := Option.some.inj hl; rfl)

/-- Witness for C5 (amended) at concrete inputs for each producer. -/
theorem c5_event_types_witness :
    _get_process_type "bash" "" ∈
      (["python", "nodejs", "vscode", "claude_code", "unknown"] : List String) ∧
    (∃ cat ∈ (["python", "nodejs", "vscode", "claude_code", "unknown"] : List String),
      (⟨"nodejs_start", [], ["d"], "npm install", none, "npm", ""⟩ : AuditEvent).event_type =
          cat ++ "_start" ∨
        (⟨"nodejs_start", [], ["d"], "npm install", none, "npm", ""⟩ : AuditEvent).event_type =
          cat ++ "_end") ∧
    (⟨"file_edit", [], ["b.txt"], "", none, "unknown", ""⟩ : AuditEvent).event_type =
      "file_edit" ∧
    (⟨"file_create", [], ["b.txt"], "", none, "unknown", ""⟩ : AuditEvent).event_type =
      "file_create" ∧
    (⟨"git_commit", [], ["d"], "git commit", none, "", ""⟩ : AuditEvent).event_type =
      "git_commit" ∧
    (⟨"claude_prompt", [], ["d"], "", none, "claude_code",
        "prompt: hi"⟩ : AuditEvent).event_type = "claude_prompt" :=
  ⟨c5_event_types.1 "bash" "",
   (c5_event_types.2.1 [[".git"]] 0 [⟨2, "npm", ["npm", "install"], ["d"]⟩]
       (fun _ => true) [] (by intro e he; cases he)).2
     ⟨"nodejs_start", [], ["d"], "npm install", none, "npm", ""⟩ (by decide),
   c5_event_types.2.2.1 [[".git"]] [] ⟨["b.txt"], false⟩ 0 false
     ⟨"file_edit", [], ["b.txt"], "", none, "unknown", ""⟩ (by decide),
   c5_event_types.2.2.2.1 [[".git"]] ⟨["b.txt"], false⟩ false
     ⟨"file_create", [], ["b.txt"], "", none, "unknown", ""⟩ (by decide),
   c5_event_types.2.2.2.2.1 [[".git"]] [⟨4, "git", ["git", "commit"], ["d"]⟩]
     ⟨"git_commit", [], ["d"], "git commit", none, "", ""⟩ (by decide),
   c5_event_types.2.2.2.2.2 [[".git"]] ["d"] ["prompt: hi"]
     ⟨"claude_prompt", [], ["d"], "", none, "claude_code", "prompt: hi"⟩ (by decide)⟩

/-- A lowercased name containing "python" is none of the four
package-manager names and is not "node". -/
theorem python_name_not_pm {s : String} (h : hasSub s "python" = true) :
    s ∉ npm_tools4 ∧ s ≠ "node" := by
  constructor
  · intro hc
    simp only [npm_tools4, List.mem_cons, List.not_mem_nil, or_false] at hc
    rcases hc with rfl | rfl | rfl | rfl <;> exact absurd h (by decide)
  · intro he
    rw [he] at h
    exact absurd h (by decide)

/-- Claim C10: the tool label of a `_end` event is recomputed from the
stored command line alone by `_get_tool_name_from_cmdline`, a
different rule than `_get_tool_name` used at start (assistant marker
before editor marker, default "unknown" instead of the raw name).  A
process whose name contains "python" (and no editor marker) and whose
command line contains no recognized keyword is logged with tool
"python" at start and "unknown" at end: the two events of one run
carry different tool labels. -/
theorem c10_tool_mismatch (fs : List PathC) (p : ProcInfo) (t1 t2 : Rat)
    (hr : is_in_git_repo fs p.cwd = true)
    (hname : hasSub (strLower p.name) "python" = true)
    (hncode : hasSub (strLower p.name) "code" = false)
    (hclaude : hasSub (strLower (joinCmd p.cmdline)) "claude" = false)
    (hcode : hasSub (strLower (joinCmd p.cmdline)) "code" = false)
    (hnpm : npm_tools4.any (fun t => hasSub (strLower (joinCmd p.cmdline)) t) = false)
    (hnode : hasSub (strLower (joinCmd p.cmdline)) "node" = false)
    (hpy : hasSub (strLower (joinCmd p.cmdline)) "python" = false) :
    monitor_cycle fs t1 [p] (fun _ => true) [] =
      ([(p.pid, ⟨t1, joinCmd p.cmdline, p.cwd, false, "python"⟩)],
       [⟨"python_start", find_git_repo fs p.cwd, p.cwd, joinCmd p.cmdline, none,
          "python", ""⟩]) ∧
    monitor_cycle fs t2 [] (fun _ => false)
        [(p.pid, ⟨t1, joinCmd p.cmdline, p.cwd, false, "python"⟩)] =
      ([], [⟨"python_end", find_git_repo fs p.cwd, p.cwd, joinCmd p.cmdline,
          some (t2 - t1), "unknown", ""⟩]) ∧
    ("python" : String) ≠ "unknown" := by
  have hmon : is_monitored p.name = true := by
    unfold is_monitored
    simp [hname]
  have htype : _get_process_type p.name (joinCmd p.cmdline) = "python" := by
    unfold _get_process_type
    simp [hname]
  have hpm := python_name_not_pm hname
  have htool : _get_tool_name p.name (joinCmd p.cmdline) = "python" := by
    unfold _get_tool_name
    simp [hncode, hclaude, hpm.1, hpm.2, hname]
  have htoolend : _get_tool_name_from_cmdline (joinCmd p.cmdline) = "unknown" := by
    unfold _get_tool_name_from_cmdline
    simp [hclaude, hcode, hnpm, hnode, hpy]
  have happ1 : ("python" ++ "_start" : String) = "python_start" := by decide
  have happ2 : ("python" ++ "_end" : String) = "python_end" := by decide
  refine ⟨?_, ?_, by decide⟩
  · have he1 : monitorEnum fs t1 [p] [] =
        ([(p.pid, ⟨t1, joinCmd p.cmdline, p.cwd, false, "python"⟩)],
         [⟨"python_start", find_git_repo fs p.cwd, p.cwd, joinCmd p.cmdline, none,
            "python", ""⟩]) := by
      simp [monitorEnum, processOne, hmon, hr, htype, htool, happ1]
    simp [monitor_cycle, he1,
      monitorSweep_all_alive fs t1 (fun _ => true) _ (by intro e he; rfl)]
  · have he2 : monitorEnum fs t2 []
        [(p.pid, (⟨t1, joinCmd p.cmdline, p.cwd, false, "python"⟩ : ActiveEntry))] =
        ([(p.pid, ⟨t1, joinCmd p.cmdline, p.cwd, false, "python"⟩)], []) := by
      simp [monitorEnum]
    simp [monitor_cycle, monitorSweep, he2, endEvent, htoolend, happ2]

/-- Witness for C10: the process `python3 ./run.sh` (command line
`./run.sh`) gets tool "python" on its start event and tool "unknown"
on its end event. -/
theorem c10_tool_mismatch_witness :
    monitor_cycle [[".git"]] 1 [⟨7, "python3", ["./run.sh"], ["w"]⟩]
        (fun _ => true) [] =
      ([(7, ⟨1, joinCmd ["./run.sh"], ["w"], false, "python"⟩)],
       [⟨"python_start", find_git_repo [[".git"]] ["w"], ["w"],
          joinCmd ["./run.sh"], none, "python", ""⟩]) ∧
    monitor_cycle [[".git"]] 5 [] (fun _ => false)
        [(7, ⟨1, joinCmd ["./run.sh"], ["w"], false, "python"⟩)] =
      ([], [⟨"python_end", find_git_repo [[".git"]] ["w"], ["w"],
          joinCmd ["./run.sh"], some (5 - 1), "unknown", ""⟩]) ∧
    ("python" : String) ≠ "unknown" :=
  c10_tool_mismatch [[".git"]] ⟨7, "python3", ["./run.sh"], ["w"]⟩ 1 5
    (by decide) (by decide) (by decide) (by decide) (by decide) (by decide)
    (by decide) (by decide)
